import Mathlib

/-!
Verification of `src/feishu_doc.py` (`FeishuDocManager`): the markdown-to-block
parser, the batched block uploader, the webhook notifier, and the
`create_daily_doc` pipeline.  Strings are modelled as `List Char`; the remote
SDK, the HTTP layer and the configuration module are modelled as an explicit
environment whose fields describe the outcome of each external call.
-/

namespace FeishuDoc

/-! ## Block model

The Python code builds `lark_oapi` `Block` objects with `block_type`
2 (text), 3 (H1), 4 (H2), 5 (H3) or 22 (divider); a divider block carries no
text payload, the others carry exactly one text run. -/

inductive Block where
  | paragraph (text : List Char)
  | heading1 (text : List Char)
  | heading2 (text : List Char)
  | heading3 (text : List Char)
  | divider
deriving DecidableEq, Repr

/-- The numeric `block_type` the source attaches to each block. -/
def blockType : Block → Nat
  | .paragraph _ => 2
  | .heading1 _ => 3
  | .heading2 _ => 4
  | .heading3 _ => 5
  | .divider => 22

/-- The text payload of a block; a divider block is built with no text. -/
def textOf : Block → Option (List Char)
  | .paragraph t => some t
  | .heading1 t => some t
  | .heading2 t => some t
  | .heading3 t => some t
  | .divider => none

/-! ## Python string primitives used by `_markdown_to_sdk_blocks` -/

/-- Whitespace characters removed by the Python `str.strip()` method (ASCII range). -/
def isPyWs (c : Char) : Bool :=
  c = ' ' || c = '\t' || c = '\n' || c = '\r' || c = '\x0b' || c = '\x0c'

/-- Model of `line.startswith(p)`: the char list `l` starts with the pattern `p`. -/
def startsWith (l p : List Char) : Bool :=
  match p, l with
  | [], _ => true
  | _ :: _, [] => false
  | c :: p', d :: l' => if c = d then startsWith l' p' else false

/-- Left part of `str.strip()`: drop leading whitespace. -/
def lstrip (l : List Char) : List Char :=
  l.dropWhile isPyWs

/-- Right part of `str.strip()`: drop trailing whitespace. -/
def rstrip (l : List Char) : List Char :=
  (l.reverse.dropWhile isPyWs).reverse

/-- Python `str.strip()`: drop leading and trailing whitespace. -/
def pyStrip (l : List Char) : List Char :=
  rstrip (lstrip l)

/-- Python newline split (`md_text.split`): always at least one part, one part per
newline-separated segment (`"".split('\n') == [""]`). -/
def splitLines : List Char → List (List Char)
  | [] => [[]]
  | c :: cs =>
    if c = '\n' then [] :: splitLines cs
    else
      match splitLines cs with
      | [] => [[c]]
      | l :: ls => (c :: l) :: ls

/-! ## The parser (`_markdown_to_sdk_blocks`, lines 90-150) -/

/-- The per-line classification of lines 100-148: default is a paragraph
(`block_type = 2`, full line as text); the three heading markers give
headings with the marker stripped; otherwise a line of three dashes gives a
divider.  The argument is the already-stripped line. -/
def classifyLine (line : List Char) : Block :=
  if startsWith line ("# ".data) then Block.heading1 (line.drop 2)
  else if startsWith line ("## ".data) then Block.heading2 (line.drop 3)
  else if startsWith line ("### ".data) then Block.heading3 (line.drop 4)
  else if startsWith line ("---".data) then Block.divider
  else Block.paragraph line

/-- One loop iteration of `_markdown_to_sdk_blocks`: strip the raw line,
skip it when blank (`if not line: continue`), otherwise classify it. -/
def parseLine (rawLine : List Char) : Option Block :=
  let line := pyStrip rawLine
  if line = [] then none else some (classifyLine line)

/-- Model of `_markdown_to_sdk_blocks`: split on newlines, process the lines in
order, appending one block per non-blank line. -/
def markdownToSdkBlocks (mdText : List Char) : List Block :=
  (splitLines mdText).filterMap parseLine

/-! ## Textual reconstruction used for the round-trip property -/

/-- Re-prefix the text of a block with its source marker. -/
def blockLine : Block → List Char
  | .paragraph t => t
  | .heading1 t => "# ".data ++ t
  | .heading2 t => "## ".data ++ t
  | .heading3 t => "### ".data ++ t
  | .divider => "---".data

/-- Python newline join (`str.join`). -/
def joinLines : List (List Char) → List Char
  | [] => []
  | [l] => l
  | l :: ls => l ++ '\n' :: joinLines ls

/-- Rebuild a markup text from a block sequence. -/
def reconstruct (bs : List Block) : List Char :=
  joinLines (bs.map blockLine)

/-! ## Configuration (`src.config` fields read in `__init__`, line 38-40) -/

structure FeishuConfig where
  feishu_app_id : Option String
  feishu_app_secret : Option String
  feishu_folder_token : Option String
  feishu_bot_webhook : Option String
deriving DecidableEq

/-- Python truthiness of an optional string: `None` and `""` are falsy. -/
def truthy : Option String → Bool
  | none => false
  | some s => !(s == "")

/-- Model of `is_configured` (line 38-40): `bool(app_id and app_secret and
folder_token)`. -/
def is_configured (c : FeishuConfig) : Bool :=
  truthy c.feishu_app_id && truthy c.feishu_app_secret && truthy c.feishu_folder_token

/-! ## Remote environment

Exceptions raised by the Python runtime are modelled as values of `PyExc`;
each external interaction is an environment field describing its outcome. -/

inductive PyExc where
  | exc (msg : String)
deriving DecidableEq

/-- Outcome of `self.client.docx.v1.document.create` plus the subsequent
field accesses: the call can raise, report failure (`not response.success()`),
or succeed with a document id. -/
inductive CreateOutcome where
  | raises (e : PyExc)
  | fails (code : Nat) (msg : String)
  | succeeds (docId : String)
deriving DecidableEq

/-- Body of the webhook HTTP response as seen by `response.json()` and
`result.get("code")`: either not JSON at all, or JSON whose `code` field is
absent or carries an integer. -/
inductive JsonBody where
  | malformed
  | withCode (code : Option Int)
deriving DecidableEq

/-- What `requests.post` does in `_send_doc_link_to_feishu`: raise a timeout,
raise a connection error, raise something else, or deliver a response with a
status code and a body. -/
inductive NotifyWire where
  | timeout
  | connectionError
  | raises (e : PyExc)
  | response (status : Nat) (body : JsonBody)
deriving DecidableEq

/-- The log line the notifier ends with — its only observable outcome, since
the function returns `None` and swallows every exception. -/
inductive NotifyOutcome where
  | pushedOk
  | appError
  | timedOut
  | connFailed
  | otherError
deriving DecidableEq

/-- Model of `_send_doc_link_to_feishu` (lines 173-216): POST the message, let
`raise_for_status` raise on a 4xx/5xx status, parse the JSON body, compare
the `code` field with 0; the `except` clauses turn each failure mode into a
log line.  Total: no exception escapes. -/
def sendDocLinkToFeishu (w : NotifyWire) : NotifyOutcome :=
  match w with
  | .timeout => NotifyOutcome.timedOut
  | .connectionError => NotifyOutcome.connFailed
  | .raises _ => NotifyOutcome.otherError
  | .response status body =>
    if 400 ≤ status ∧ status < 600 then NotifyOutcome.otherError
    else
      match body with
      | .malformed => NotifyOutcome.otherError
      | .withCode c => if c = some 0 then NotifyOutcome.pushedOk else NotifyOutcome.appError

/-! ## Batched upload (`_batch_write_blocks`, lines 152-171) -/

/-- Constant `batch_size = 50` (line 154). -/
def batchSize : Nat := 50

/-- The slices visited by `for i in range(0, len(blocks), batch_size)` with
`batch_blocks = blocks[i:i+batch_size]`: the loop runs for
`i = k * bs`, `k < ⌈len / bs⌉`, and `blocks[i:i+bs]` is `take bs (drop i)`. -/
def batchSlices (blocks : List Block) (bs : Nat) : List (List Block) :=
  (List.range ((blocks.length + bs - 1) / bs)).map fun k => ((blocks.drop (k * bs)).take bs)

/-- A remote interaction performed by the pipeline. -/
inductive RemoteCall where
  | createDoc (title : String)
  | appendBlocks (docId : String) (children : List Block)
  | webhookPost (url : String)
deriving DecidableEq

/-- Observable effects of `_batch_write_blocks`: the append requests issued,
the batch numbers logged as failed (`i // batch_size + 1`), the exception
that aborted the loop (if a call raised), and the Python return value —
always `None`, modelled as `Unit`. -/
structure BWResult where
  calls : List RemoteCall
  failLogs : List Nat
  raised : Option PyExc
  ret : Unit
deriving DecidableEq

/-- The loop body of `_batch_write_blocks` over the enumerated batches: the
`k`-th remote call either raises (aborting the loop), or reports success or
failure; a reported failure only logs batch number `k + 1` and the loop
continues. -/
def bwLoop (docId : String) (resp : Nat → Except PyExc Bool) :
    List (Nat × List Block) → BWResult
  | [] => ⟨[], [], none, ()⟩
  | (k, b) :: rest =>
    match resp k with
    | .error e => ⟨[RemoteCall.appendBlocks docId b], [], some e, ()⟩
    | .ok ok =>
      let r := bwLoop docId resp rest
      ⟨RemoteCall.appendBlocks docId b :: r.calls,
       if ok then r.failLogs else (k + 1) :: r.failLogs,
       r.raised, ()⟩

/-- Model of `_batch_write_blocks` (lines 152-171). -/
def batchWriteBlocks (docId : String) (blocks : List Block)
    (resp : Nat → Except PyExc Bool) : BWResult :=
  bwLoop docId resp ((batchSlices blocks batchSize).enum)

/-! ## The pipeline (`create_daily_doc`, lines 42-88) -/

structure PipelineEnv where
  config : FeishuConfig
  createResp : CreateOutcome
  batchResp : Nat → Except PyExc Bool
  notifyWire : NotifyWire

/-- What a run of `create_daily_doc` produces: the value returned to the
caller, any exception crossing the function boundary, the exception (if any)
caught by the outermost `except` handler, the remote calls issued, and the
log line of the notifier when notification was attempted. -/
structure RunReport where
  result : Option String
  uncaught : Option PyExc
  caught : Option PyExc
  remoteCalls : List RemoteCall
  notifyLog : Option NotifyOutcome
deriving DecidableEq

/-- Model of `create_daily_doc` (lines 42-88): refuse when unconfigured (the client is
only built in `__init__` when `is_configured`); then, inside `try`: create the
document, bail out with `None` if creation fails, convert the markdown, batch
write (a raised exception propagates to the handler), push the link when a
webhook is configured, and return the URL; the `except Exception` handler
logs and returns `None`. -/
def createDailyDoc (env : PipelineEnv) (title contentMd : String) : RunReport :=
  let clientBuilt := is_configured env.config
  if !clientBuilt || !is_configured env.config then
    ⟨none, none, none, [], none⟩
  else
    match env.createResp with
    | .raises e => ⟨none, none, some e, [RemoteCall.createDoc title], none⟩
    | .fails _ _ => ⟨none, none, none, [RemoteCall.createDoc title], none⟩
    | .succeeds docId =>
      let docUrl := "https://feishu.cn/docx/" ++ docId
      let blocks := markdownToSdkBlocks contentMd.data
      let bw := batchWriteBlocks docId blocks env.batchResp
      match bw.raised with
      | some e => ⟨none, none, some e, RemoteCall.createDoc title :: bw.calls, none⟩
      | none =>
        match env.config.feishu_bot_webhook with
        | some url =>
          if url = "" then
            ⟨some docUrl, none, none, RemoteCall.createDoc title :: bw.calls, none⟩
          else
            ⟨some docUrl, none, none,
             RemoteCall.createDoc title :: bw.calls ++ [RemoteCall.webhookPost url],
             some (sendDocLinkToFeishu env.notifyWire)⟩
        | none => ⟨some docUrl, none, none, RemoteCall.createDoc title :: bw.calls, none⟩

/-- Replace the notification outcome of an environment, leaving the
configuration and the document-side outcomes unchanged. -/
def setNotify (env : PipelineEnv) (w : NotifyWire) : PipelineEnv :=
  ⟨env.config, env.createResp, env.batchResp, w⟩

/-! ## Concrete sample environments used by the witnesses -/

def exConfig : FeishuConfig :=
  ⟨some "id", some "secret", some "folder", some "hook"⟩

def exEnv : PipelineEnv :=
  ⟨exConfig, CreateOutcome.succeeds "d1", fun _ => Except.ok true,
   NotifyWire.response 200 (JsonBody.withCode (some 0))⟩

def exEnvRaise : PipelineEnv :=
  ⟨exConfig, CreateOutcome.raises (PyExc.exc "boom"), fun _ => Except.ok true,
   NotifyWire.timeout⟩

def exConfigBad : FeishuConfig :=
  ⟨some "id", none, some "folder", none⟩

def exEnvBad : PipelineEnv :=
  ⟨exConfigBad, CreateOutcome.succeeds "d1", fun _ => Except.ok true,
   NotifyWire.timeout⟩

/-- One-batch block list used by the C3 counterexample. -/
def cexBlocks : List Block := [Block.divider]

/-- The shape invariant the parser guarantees for each block it emits, strong
enough to reparse the textual reconstruction of the block. -/
def wfBlock : Block → Prop
  | .paragraph t => pyStrip t = t ∧ t ≠ [] ∧ startsWith t ("# ".data) = false ∧
      startsWith t ("## ".data) = false ∧ startsWith t ("### ".data) = false ∧
      startsWith t ("---".data) = false ∧ '\n' ∉ t
  | .heading1 t => t ≠ [] ∧ (∃ d r, t.reverse = d :: r ∧ isPyWs d = false) ∧ '\n' ∉ t
  | .heading2 t => t ≠ [] ∧ (∃ d r, t.reverse = d :: r ∧ isPyWs d = false) ∧ '\n' ∉ t
  | .heading3 t => t ≠ [] ∧ (∃ d r, t.reverse = d :: r ∧ isPyWs d = false) ∧ '\n' ∉ t
  | .divider => True

/-! ## Helper lemmas on the string primitives -/

theorem startsWith_iff (p : List Char) : ∀ l : List Char,
    startsWith l p = true ↔ ∃ t, l = p ++ t := by
  induction p with
  | nil =>
    intro l
    simp [startsWith]
  | cons c p' ih =>
    intro l
    cases l with
    | nil =>
      simp [startsWith]
    | cons d l' =>
      by_cases h : c = d
      · subst h
        simp [startsWith, ih l']
      · constructor
        · intro hs
          rw [startsWith] at hs
          rw [if_neg h] at hs
          exact absurd hs (by simp)
        · rintro ⟨t, ht⟩
          rw [List.cons_append] at ht
          cases ht
          exact absurd rfl h

theorem dropWhile_idem (p : α → Bool) (l : List α) :
    (l.dropWhile p).dropWhile p = l.dropWhile p := by
  induction l with
  | nil => simp
  | cons a l ih =>
    by_cases h : p a
    · simpa [List.dropWhile, h] using ih
    · simp [List.dropWhile, h]

theorem dropWhile_head_false (p : α → Bool) (l : List α) :
    l.dropWhile p = [] ∨ ∃ a t, l.dropWhile p = a :: t ∧ p a = false := by
  induction l with
  | nil => simp
  | cons a l ih =>
    by_cases h : p a
    · simpa [List.dropWhile, h] using ih
    · right
      exact ⟨a, l, by simp [List.dropWhile, h], by simp [h]⟩

theorem dropWhile_ws_append {w : List Char} (hw : ∀ c ∈ w, isPyWs c = true)
    (l : List Char) : (w ++ l).dropWhile isPyWs = l.dropWhile isPyWs := by
  induction w with
  | nil => simp
  | cons a ws ih =>
    have ha : isPyWs a = true := hw a (by simp)
    have ih' := ih fun c hc => hw c (by simp [hc])
    simpa [List.dropWhile, ha] using ih'

theorem dropWhile_append_of_ne_nil {p : α → Bool} {l : List α}
    (h : l.dropWhile p ≠ []) (r : List α) :
    (l ++ r).dropWhile p = l.dropWhile p ++ r := by
  induction l with
  | nil => simp at h
  | cons a l ih =>
    by_cases ha : p a
    · have h' : l.dropWhile p ≠ [] := by simpa [List.dropWhile, ha] using h
      simpa [List.dropWhile, ha] using ih h'
    · simp [List.dropWhile, ha]

theorem pyStrip_eq_nil_iff (l : List Char) :
    pyStrip l = [] ↔ ∀ c ∈ l, isPyWs c = true := by
  unfold pyStrip rstrip lstrip
  constructor
  · intro h c hc
    have hrev : (l.dropWhile isPyWs).reverse.dropWhile isPyWs = [] := by
      have := congrArg List.reverse h
      simpa using this
    have hall : ∀ c ∈ (l.dropWhile isPyWs).reverse, isPyWs c = true :=
      List.dropWhile_eq_nil_iff.mp hrev
    have hall' : ∀ c ∈ l.dropWhile isPyWs, isPyWs c = true := by
      intro c hc
      exact hall c (List.mem_reverse.mpr hc)
    have hl : l = l.takeWhile isPyWs ++ l.dropWhile isPyWs :=
      (List.takeWhile_append_dropWhile _ _).symm
    rw [hl] at hc
    rcases List.mem_append.mp hc with h1 | h2
    · exact List.mem_takeWhile_imp h1
    · exact hall' c h2
  · intro h
    have h1 : l.dropWhile isPyWs = [] := by
      apply List.dropWhile_eq_nil_iff.mpr
      intro c hc
      exact h c hc
    simp [h1]

theorem pyStrip_pad {w1 w2 : List Char} (l : List Char)
    (h1 : ∀ c ∈ w1, isPyWs c = true) (h2 : ∀ c ∈ w2, isPyWs c = true) :
    pyStrip (w1 ++ l ++ w2) = pyStrip l := by
  unfold pyStrip rstrip lstrip
  rw [List.append_assoc, dropWhile_ws_append h1]
  rcases em (l.dropWhile isPyWs = []) with hnil | hne
  · have hall : ∀ c ∈ l, isPyWs c = true := List.dropWhile_eq_nil_iff.mp hnil
    have : (l ++ w2).dropWhile isPyWs = [] := by
      apply List.dropWhile_eq_nil_iff.mpr
      intro c hc
      rcases List.mem_append.mp hc with h | h
      · exact hall c h
      · exact h2 c h
    simp [this, hnil]
  · rw [dropWhile_append_of_ne_nil hne, List.reverse_append,
      dropWhile_ws_append (by intro c hc; exact h2 c (List.mem_reverse.mp hc))]

/-! ## Theorems -/

theorem lstrip_pyStrip (l : List Char) : lstrip (pyStrip l) = pyStrip l := by
  unfold pyStrip
  rcases dropWhile_head_false isPyWs l with h0 | ⟨b, t, hbt, hb⟩
  · rw [show lstrip l = l.dropWhile isPyWs from rfl, h0]
    simp [rstrip, lstrip, List.dropWhile]
  · rw [show lstrip l = l.dropWhile isPyWs from rfl, hbt]
    cases hz : ((b :: t).reverse.dropWhile isPyWs).reverse with
    | nil =>
      show lstrip (rstrip (b :: t)) = rstrip (b :: t)
      rw [show rstrip (b :: t) = ((b :: t).reverse.dropWhile isPyWs).reverse from rfl, hz]
      simp [lstrip, List.dropWhile]
    | cons c cs =>
      show lstrip (rstrip (b :: t)) = rstrip (b :: t)
      rw [show rstrip (b :: t) = ((b :: t).reverse.dropWhile isPyWs).reverse from rfl, hz]
      have h1 : (b :: t).reverse =
          (b :: t).reverse.takeWhile isPyWs ++ (b :: t).reverse.dropWhile isPyWs :=
        (List.takeWhile_append_dropWhile _ _).symm
      have h2 : (b :: t).reverse.dropWhile isPyWs = (c :: cs).reverse := by
        have := congrArg List.reverse hz
        simpa using this
      rw [h2] at h1
      have h3 := congrArg List.reverse h1
      simp only [List.reverse_reverse, List.reverse_append, List.cons_append] at h3
      have hbc : b = c := (List.cons.injEq _ _ _ _ ▸ h3).1
      have hc : isPyWs c = false := hbc ▸ hb
      simp [lstrip, List.dropWhile, hc]

theorem rstrip_pyStrip (l : List Char) : rstrip (pyStrip l) = pyStrip l := by
  unfold pyStrip rstrip
  rw [List.reverse_reverse, dropWhile_idem]

theorem pyStrip_idem (l : List Char) : pyStrip (pyStrip l) = pyStrip l := by
  rw [show pyStrip (pyStrip l) = rstrip (lstrip (pyStrip l)) from rfl,
    lstrip_pyStrip, rstrip_pyStrip]

theorem mem_of_mem_dropWhile {p : α → Bool} {c : α} {l : List α}
    (h : c ∈ l.dropWhile p) : c ∈ l := by
  have hsplit := List.takeWhile_append_dropWhile p l
  rw [← hsplit]
  exact List.mem_append.mpr (Or.inr h)

theorem mem_of_mem_pyStrip {c : Char} {l : List Char} (h : c ∈ pyStrip l) : c ∈ l := by
  unfold pyStrip rstrip at h
  have h1 : c ∈ (lstrip l).reverse.dropWhile isPyWs := List.mem_reverse.mp h
  have h2 : c ∈ (lstrip l).reverse := mem_of_mem_dropWhile h1
  have h3 : c ∈ lstrip l := List.mem_reverse.mp h2
  exact mem_of_mem_dropWhile h3

theorem pyStrip_reverse_clean {l : List Char} (h : pyStrip l ≠ []) :
    ∃ d r, (pyStrip l).reverse = d :: r ∧ isPyWs d = false := by
  rcases dropWhile_head_false isPyWs (lstrip l).reverse with h0 | ⟨a, t, ha, hws⟩
  · exact absurd (by unfold pyStrip rstrip; rw [h0]; rfl) h
  · exact ⟨a, t, by unfold pyStrip rstrip; rw [List.reverse_reverse, ha], hws⟩

theorem pyStrip_eq_self {c : Char} {l : List Char} (hw : isPyWs c = false)
    {d : Char} {r : List Char} (h : (c :: l).reverse = d :: r) (hd : isPyWs d = false) :
    pyStrip (c :: l) = c :: l := by
  unfold pyStrip lstrip rstrip
  have h1 : (c :: l).dropWhile isPyWs = c :: l := by simp [List.dropWhile, hw]
  rw [h1, h]
  have h2 : List.dropWhile isPyWs (d :: r) = d :: r := by simp [List.dropWhile, hd]
  rw [h2]
  have := congrArg List.reverse h
  simpa using this.symm

theorem reverse_append_head {m t : List Char} {d : Char} {r : List Char} (ht : t ≠ [])
    (h : (m ++ t).reverse = d :: r) : ∃ s, t.reverse = d :: s := by
  cases hs : t.reverse with
  | nil =>
    have : t = [] := by simpa using congrArg List.reverse hs
    exact absurd this ht
  | cons a s =>
    rw [List.reverse_append, hs, List.cons_append] at h
    injection h with h1 _
    exact ⟨s, by rw [h1]⟩

/-! ## splitLines / joinLines lemmas -/

theorem splitLines_ne_nil : ∀ cs : List Char, splitLines cs ≠ [] := by
  intro cs
  induction cs with
  | nil => simp [splitLines]
  | cons c cs ih =>
    rw [splitLines]
    by_cases h : c = '\n'
    · simp [h]
    · cases hs : splitLines cs with
      | nil => exact absurd hs ih
      | cons l ls => simp [h, hs]

theorem no_nl_of_mem_splitLines : ∀ (cs : List Char) (l : List Char),
    l ∈ splitLines cs → '\n' ∉ l := by
  intro cs
  induction cs with
  | nil =>
    intro l hl
    simp [splitLines] at hl
    simp [hl]
  | cons c cs ih =>
    intro l hl
    rw [splitLines] at hl
    by_cases h : c = '\n'
    · rw [if_pos h] at hl
      rcases List.mem_cons.mp hl with rfl | hmem
      · simp
      · exact ih l hmem
    · rw [if_neg h] at hl
      cases hs : splitLines cs with
      | nil => exact absurd hs (splitLines_ne_nil cs)
      | cons m ms =>
        rw [hs] at hl
        rcases List.mem_cons.mp hl with rfl | hmem
        · intro hin
          rcases List.mem_cons.mp hin with heq | hmem2
          · exact h heq.symm
          · exact ih m (by rw [hs]; exact List.mem_cons_self m ms) hmem2
        · exact ih l (by rw [hs]; exact List.mem_cons.mpr (Or.inr hmem))

theorem splitLines_no_nl {x : List Char} (h : '\n' ∉ x) : splitLines x = [x] := by
  induction x with
  | nil => rfl
  | cons c cs ih =>
    have hc : c ≠ '\n' := fun hc => h (hc ▸ List.mem_cons_self c cs)
    have hcs : '\n' ∉ cs := fun hin => h (List.mem_cons.mpr (Or.inr hin))
    rw [splitLines, if_neg hc, ih hcs]

theorem splitLines_append_nl {x : List Char} (h : '\n' ∉ x) (r : List Char) :
    splitLines (x ++ '\n' :: r) = x :: splitLines r := by
  induction x with
  | nil => simp [splitLines]
  | cons c cs ih =>
    have hc : c ≠ '\n' := fun hc => h (hc ▸ List.mem_cons_self c cs)
    have hcs : '\n' ∉ cs := fun hin => h (List.mem_cons.mpr (Or.inr hin))
    rw [List.cons_append, splitLines, if_neg hc, ih hcs]

theorem splitLines_joinLines : ∀ ls : List (List Char), ls ≠ [] →
    (∀ l ∈ ls, '\n' ∉ l) → splitLines (joinLines ls) = ls := by
  intro ls
  induction ls with
  | nil => intro h; exact absurd rfl h
  | cons l ls ih =>
    intro _ hno
    cases ls with
    | nil => exact splitLines_no_nl (hno l (List.mem_cons_self l []))
    | cons m ms =>
      rw [show joinLines (l :: m :: ms) = l ++ '\n' :: joinLines (m :: ms) from rfl,
        splitLines_append_nl (hno l (List.mem_cons_self l (m :: ms)))]
      rw [ih (by simp) (fun a ha => hno a (List.mem_cons.mpr (Or.inr ha)))]

/-! ## Marker and classification lemmas -/

theorem h1_data : "# ".data = ['#', ' '] := rfl
theorem h2_data : "## ".data = ['#', '#', ' '] := rfl
theorem h3_data : "### ".data = ['#', '#', '#', ' '] := rfl
theorem div_data : "---".data = ['-', '-', '-'] := rfl

theorem classify_h1 (t : List Char) :
    classifyLine (['#', ' '] ++ t) = Block.heading1 t := by
  rw [classifyLine, h1_data]
  simp [startsWith]

theorem classify_h2 (t : List Char) :
    classifyLine (['#', '#', ' '] ++ t) = Block.heading2 t := by
  rw [classifyLine, h1_data, h2_data]
  simp [startsWith]

theorem classify_h3 (t : List Char) :
    classifyLine (['#', '#', '#', ' '] ++ t) = Block.heading3 t := by
  rw [classifyLine, h1_data, h2_data, h3_data]
  simp [startsWith]

theorem classify_div (t : List Char) :
    classifyLine (['-', '-', '-'] ++ t) = Block.divider := by
  rw [classifyLine, h1_data, h2_data, h3_data, div_data]
  simp [startsWith]

theorem classify_para {l : List Char}
    (hp1 : startsWith l ("# ".data) = false)
    (hp2 : startsWith l ("## ".data) = false)
    (hp3 : startsWith l ("### ".data) = false)
    (hpd : startsWith l ("---".data) = false) :
    classifyLine l = Block.paragraph l := by
  rw [classifyLine, hp1, hp2, hp3, hpd]
  simp

/-- The five-way case split of the classifier, with the line shape in each
branch. -/
theorem classifyLine_cases (line : List Char) :
    (∃ t, line = ['#', ' '] ++ t ∧ classifyLine line = Block.heading1 t) ∨
    (∃ t, line = ['#', '#', ' '] ++ t ∧ classifyLine line = Block.heading2 t) ∨
    (∃ t, line = ['#', '#', '#', ' '] ++ t ∧ classifyLine line = Block.heading3 t) ∨
    (∃ t, line = ['-', '-', '-'] ++ t ∧ classifyLine line = Block.divider) ∨
    (startsWith line ("# ".data) = false ∧ startsWith line ("## ".data) = false ∧
     startsWith line ("### ".data) = false ∧ startsWith line ("---".data) = false ∧
     classifyLine line = Block.paragraph line) := by
  by_cases hp1 : startsWith line ("# ".data) = true
  · rcases (startsWith_iff _ line).mp hp1 with ⟨t, rfl⟩
    exact Or.inl ⟨t, rfl, classify_h1 t⟩
  · by_cases hp2 : startsWith line ("## ".data) = true
    · rcases (startsWith_iff _ line).mp hp2 with ⟨t, rfl⟩
      exact Or.inr (Or.inl ⟨t, rfl, classify_h2 t⟩)
    · by_cases hp3 : startsWith line ("### ".data) = true
      · rcases (startsWith_iff _ line).mp hp3 with ⟨t, rfl⟩
        exact Or.inr (Or.inr (Or.inl ⟨t, rfl, classify_h3 t⟩))
      · by_cases hpd : startsWith line ("---".data) = true
        · rcases (startsWith_iff _ line).mp hpd with ⟨t, rfl⟩
          exact Or.inr (Or.inr (Or.inr (Or.inl ⟨t, rfl, classify_div t⟩)))
        · refine Or.inr (Or.inr (Or.inr (Or.inr ⟨?_, ?_, ?_, ?_, ?_⟩))) <;>
            first
              | exact Bool.not_eq_true _ ▸ hp1
              | exact Bool.not_eq_true _ ▸ hp2
              | exact Bool.not_eq_true _ ▸ hp3
              | exact Bool.not_eq_true _ ▸ hpd
              | exact classify_para (Bool.not_eq_true _ ▸ hp1) (Bool.not_eq_true _ ▸ hp2)
                  (Bool.not_eq_true _ ▸ hp3) (Bool.not_eq_true _ ▸ hpd)

/-! ## parseLine lemmas -/

theorem parseLine_of_ne {raw : List Char} (h : pyStrip raw ≠ []) :
    parseLine raw = some (classifyLine (pyStrip raw)) := by
  simp [parseLine, h]

theorem parseLine_isSome (l : List Char) :
    (parseLine l).isSome = !(pyStrip l == []) := by
  by_cases h : pyStrip l = [] <;> simp [parseLine, h]

theorem length_filterMap_eq_countP (f : α → Option β) : ∀ l : List α,
    (l.filterMap f).length = l.countP (fun a => (f a).isSome) := by
  intro l
  induction l with
  | nil => rfl
  | cons a l ih =>
    rw [List.filterMap_cons, List.countP_cons]
    cases h : f a <;> simp [h, ih]

/-- A nonempty stripped tail after a heading marker ending in a space. -/
theorem heading_tail_endsClean {raw m t : List Char} (hne : pyStrip raw ≠ [])
    (hline : pyStrip raw = m ++ t) {s : List Char} (hm : m.reverse = ' ' :: s) :
    t ≠ [] ∧ (∃ d r, t.reverse = d :: r ∧ isPyWs d = false) := by
  rcases pyStrip_reverse_clean hne with ⟨d, r, hdr, hd⟩
  rw [hline] at hdr
  have ht : t ≠ [] := by
    rintro rfl
    rw [List.append_nil, hm] at hdr
    injection hdr with h1 _
    rw [← h1] at hd
    exact absurd hd (by decide)
  rcases reverse_append_head ht hdr with ⟨s', hts⟩
  exact ⟨ht, d, s', hts, hd⟩

theorem strip_ne_of_endsClean {t : List Char}
    (h : ∃ d r, t.reverse = d :: r ∧ isPyWs d = false) : pyStrip t ≠ [] := by
  rcases h with ⟨d, r, hdr, hd⟩
  have hdm : d ∈ t := List.mem_reverse.mp (by rw [hdr]; exact List.mem_cons_self _ _)
  intro h0
  have := (pyStrip_eq_nil_iff t).mp h0 d hdm
  rw [this] at hd
  cases hd

/-- C1: for every non-blank (post-trim) line, the parser classifies it by
marker with first-match-wins priority — `"### "` gives a Heading3 with the
first four characters stripped, `"## "` a Heading2 (strip 3), `"# "` a
Heading1 (strip 2), a remaining line starting with `"---"` a Divider, and
anything else a Paragraph carrying the full trimmed line; in particular
`"# ---"` is a Heading1 and a bare `"#"` is a Paragraph. -/
theorem c1_line_classification (raw : List Char) (h : pyStrip raw ≠ []) :
    (startsWith (pyStrip raw) ("### ".data) = true →
      parseLine raw = some (Block.heading3 ((pyStrip raw).drop 4))) ∧
    (startsWith (pyStrip raw) ("## ".data) = true →
      parseLine raw = some (Block.heading2 ((pyStrip raw).drop 3))) ∧
    (startsWith (pyStrip raw) ("# ".data) = true →
      parseLine raw = some (Block.heading1 ((pyStrip raw).drop 2))) ∧
    (startsWith (pyStrip raw) ("---".data) = true →
      parseLine raw = some Block.divider) ∧
    (startsWith (pyStrip raw) ("### ".data) = false →
      startsWith (pyStrip raw) ("## ".data) = false →
      startsWith (pyStrip raw) ("# ".data) = false →
      startsWith (pyStrip raw) ("---".data) = false →
      parseLine raw = some (Block.paragraph (pyStrip raw))) ∧
    parseLine ("# ---".data) = some (Block.heading1 ("---".data)) ∧
    parseLine ("#".data) = some (Block.paragraph ("#".data)) := by
  have hp := parseLine_of_ne h
  refine ⟨?_, ?_, ?_, ?_, ?_, by decide, by decide⟩
  · intro hs
    rcases (startsWith_iff _ _).mp hs with ⟨t, ht⟩
    rw [h3_data] at ht
    rw [hp, ht, classify_h3]
    rfl
  · intro hs
    rcases (startsWith_iff _ _).mp hs with ⟨t, ht⟩
    rw [h2_data] at ht
    rw [hp, ht, classify_h2]
    rfl
  · intro hs
    rcases (startsWith_iff _ _).mp hs with ⟨t, ht⟩
    rw [h1_data] at ht
    rw [hp, ht, classify_h1]
    rfl
  · intro hs
    rcases (startsWith_iff _ _).mp hs with ⟨t, ht⟩
    rw [div_data] at ht
    rw [hp, ht, classify_div]
  · intro h3 h2 h1 hd
    rw [hp, classify_para h1 h2 h3 hd]

/-- C1 witness. -/
theorem c1_line_classification_witness :
    parseLine ("### Hi".data) = some (Block.heading3 ((pyStrip ("### Hi".data)).drop 4)) :=
  (c1_line_classification ("### Hi".data) (by decide)).1 (by decide)

/-- C5: a blank (post-trim) line never produces a block, the number of parsed
blocks equals the number of non-blank lines, and the empty input parses to
the empty sequence. -/
theorem c5_blank_lines_skipped (raw md : List Char) :
    (pyStrip raw = [] → parseLine raw = none) ∧
    (markdownToSdkBlocks md).length
      = (splitLines md).countP (fun l => !(pyStrip l == [])) ∧
    markdownToSdkBlocks [] = [] := by
  refine ⟨?_, ?_, rfl⟩
  · intro h
    simp [parseLine, h]
  · rw [markdownToSdkBlocks, length_filterMap_eq_countP]
    exact List.countP_congr fun l _ => by rw [parseLine_isSome l]

/-- C5 witness. -/
theorem c5_blank_lines_skipped_witness :
    parseLine ("   ".data) = none ∧
    (markdownToSdkBlocks ("a\n \nb".data)).length
      = (splitLines ("a\n \nb".data)).countP (fun l => !(pyStrip l == [])) :=
  ⟨(c5_blank_lines_skipped ("   ".data) []).1 (by decide),
   (c5_blank_lines_skipped [] ("a\n \nb".data)).2.1⟩

/-- C9: every parsed block is a divider carrying no text, or a
paragraph/heading whose text is non-empty after trimming. -/
theorem c9_block_invariant (md : List Char) (b : Block)
    (hb : b ∈ markdownToSdkBlocks md) :
    (b = Block.divider → textOf b = none) ∧
    (b ≠ Block.divider → ∃ t, textOf b = some t ∧ pyStrip t ≠ []) := by
  rcases List.mem_filterMap.mp hb with ⟨raw, _, hparse⟩
  have hne : pyStrip raw ≠ [] := by
    by_contra h0
    simp [parseLine, h0] at hparse
  rw [parseLine_of_ne hne] at hparse
  have hb' : b = classifyLine (pyStrip raw) := (Option.some.injEq _ _ ▸ hparse).symm
  rcases classifyLine_cases (pyStrip raw) with
    ⟨t, hline, hcl⟩ | ⟨t, hline, hcl⟩ | ⟨t, hline, hcl⟩ | ⟨t, hline, hcl⟩ |
    ⟨_, _, _, _, hcl⟩
  · rw [hcl] at hb'
    subst hb'
    constructor
    · intro hdiv
      cases hdiv
    · intro _
      exact ⟨t, rfl, strip_ne_of_endsClean (heading_tail_endsClean hne hline rfl).2⟩
  · rw [hcl] at hb'
    subst hb'
    constructor
    · intro hdiv
      cases hdiv
    · intro _
      exact ⟨t, rfl, strip_ne_of_endsClean (heading_tail_endsClean hne hline rfl).2⟩
  · rw [hcl] at hb'
    subst hb'
    constructor
    · intro hdiv
      cases hdiv
    · intro _
      exact ⟨t, rfl, strip_ne_of_endsClean (heading_tail_endsClean hne hline rfl).2⟩
  · rw [hcl] at hb'
    subst hb'
    exact ⟨fun _ => rfl, fun hnd => absurd rfl hnd⟩
  · rw [hcl] at hb'
    subst hb'
    constructor
    · intro hdiv
      cases hdiv
    · intro _
      refine ⟨pyStrip raw, rfl, ?_⟩
      rw [pyStrip_idem]
      exact hne

/-- C9 witness. -/
theorem c9_block_invariant_witness :
    (Block.heading1 ("Hi".data) = Block.divider →
      textOf (Block.heading1 ("Hi".data)) = none) ∧
    (Block.heading1 ("Hi".data) ≠ Block.divider →
      ∃ t, textOf (Block.heading1 ("Hi".data)) = some t ∧ pyStrip t ≠ []) :=
  c9_block_invariant ("# Hi\n---".data) (Block.heading1 ("Hi".data)) (by decide)

/-- C10: the parser trims leading as well as trailing whitespace before
classifying, so padding a line with whitespace never changes its parse; an
indented marker line is still a heading. -/
theorem c10_whitespace_invariance (raw w1 w2 : List Char)
    (h1 : ∀ c ∈ w1, isPyWs c = true) (h2 : ∀ c ∈ w2, isPyWs c = true) :
    parseLine (w1 ++ raw ++ w2) = parseLine raw ∧
    parseLine ("   # Title".data) = some (Block.heading1 ("Title".data)) := by
  refine ⟨?_, by decide⟩
  simp only [parseLine]
  rw [pyStrip_pad raw h1 h2]

/-- C10 witness. -/
theorem c10_whitespace_invariance_witness :
    parseLine ("  ".data ++ "a".data ++ " ".data) = parseLine ("a".data) :=
  (c10_whitespace_invariance ("a".data) ("  ".data) (" ".data)
    (by decide) (by decide)).1

theorem parser_wf {raw : List Char} {b : Block} (hparse : parseLine raw = some b)
    (hnl : '\n' ∉ raw) : wfBlock b := by
  have hne : pyStrip raw ≠ [] := by
    by_contra h0
    simp [parseLine, h0] at hparse
  rw [parseLine_of_ne hne] at hparse
  have hb' : b = classifyLine (pyStrip raw) := (Option.some.injEq _ _ ▸ hparse).symm
  have hnl' : '\n' ∉ pyStrip raw := fun hin => hnl (mem_of_mem_pyStrip hin)
  rcases classifyLine_cases (pyStrip raw) with
    ⟨t, hline, hcl⟩ | ⟨t, hline, hcl⟩ | ⟨t, hline, hcl⟩ | ⟨t, hline, hcl⟩ |
    ⟨hp1, hp2, hp3, hpd, hcl⟩
  · rw [hcl] at hb'
    subst hb'
    have hend := heading_tail_endsClean hne hline rfl
    exact ⟨hend.1, hend.2, fun hin => hnl' (by rw [hline]; exact List.mem_append_right _ hin)⟩
  · rw [hcl] at hb'
    subst hb'
    have hend := heading_tail_endsClean hne hline rfl
    exact ⟨hend.1, hend.2, fun hin => hnl' (by rw [hline]; exact List.mem_append_right _ hin)⟩
  · rw [hcl] at hb'
    subst hb'
    have hend := heading_tail_endsClean hne hline rfl
    exact ⟨hend.1, hend.2, fun hin => hnl' (by rw [hline]; exact List.mem_append_right _ hin)⟩
  · rw [hcl] at hb'
    subst hb'
    trivial
  · rw [hcl] at hb'
    subst hb'
    exact ⟨pyStrip_idem raw, hne, hp1, hp2, hp3, hpd, hnl'⟩

theorem reparse {b : Block} (h : wfBlock b) : parseLine (blockLine b) = some b := by
  cases b with
  | paragraph t =>
    rcases h with ⟨hstrip, hne, hp1, hp2, hp3, hpd, _⟩
    rw [show blockLine (Block.paragraph t) = t from rfl]
    rw [parseLine]
    simp only [hstrip]
    rw [if_neg hne, classify_para hp1 hp2 hp3 hpd]
  | heading1 t =>
    rcases h with ⟨hne, hend, _⟩
    rw [show blockLine (Block.heading1 t) = ['#', ' '] ++ t from rfl]
    have hstrip : pyStrip (['#', ' '] ++ t) = ['#', ' '] ++ t := by
      rcases hend with ⟨d, r, hdr, hd⟩
      have hrev : ('#' :: ' ' :: t : List Char).reverse = d :: (r ++ [' ', '#']) := by
        rw [show ('#' :: ' ' :: t : List Char).reverse = t.reverse ++ [' ', '#'] by simp,
          hdr, List.cons_append]
      exact pyStrip_eq_self (by decide) hrev hd
    rw [parseLine]
    simp only [hstrip]
    rw [if_neg (by simp), classify_h1]
  | heading2 t =>
    rcases h with ⟨hne, hend, _⟩
    rw [show blockLine (Block.heading2 t) = ['#', '#', ' '] ++ t from rfl]
    have hstrip : pyStrip (['#', '#', ' '] ++ t) = ['#', '#', ' '] ++ t := by
      rcases hend with ⟨d, r, hdr, hd⟩
      have hrev : ('#' :: '#' :: ' ' :: t : List Char).reverse
          = d :: (r ++ [' ', '#', '#']) := by
        rw [show ('#' :: '#' :: ' ' :: t : List Char).reverse
          = t.reverse ++ [' ', '#', '#'] by simp, hdr, List.cons_append]
      exact pyStrip_eq_self (by decide) hrev hd
    rw [parseLine]
    simp only [hstrip]
    rw [if_neg (by simp), classify_h2]
  | heading3 t =>
    rcases h with ⟨hne, hend, _⟩
    rw [show blockLine (Block.heading3 t) = ['#', '#', '#', ' '] ++ t from rfl]
    have hstrip : pyStrip (['#', '#', '#', ' '] ++ t) = ['#', '#', '#', ' '] ++ t := by
      rcases hend with ⟨d, r, hdr, hd⟩
      have hrev : ('#' :: '#' :: '#' :: ' ' :: t : List Char).reverse
          = d :: (r ++ [' ', '#', '#', '#']) := by
        rw [show ('#' :: '#' :: '#' :: ' ' :: t : List Char).reverse
          = t.reverse ++ [' ', '#', '#', '#'] by simp, hdr, List.cons_append]
      exact pyStrip_eq_self (by decide) hrev hd
    rw [parseLine]
    simp only [hstrip]
    rw [if_neg (by simp), classify_h3]
  | divider => decide

theorem blockLine_no_nl {b : Block} (h : wfBlock b) : '\n' ∉ blockLine b := by
  cases b with
  | paragraph t => exact h.2.2.2.2.2.2
  | heading1 t =>
    intro hin
    rcases List.mem_append.mp hin with hm | hm
    · simp at hm
    · exact h.2.2 hm
  | heading2 t =>
    intro hin
    rcases List.mem_append.mp hin with hm | hm
    · simp at hm
    · exact h.2.2 hm
  | heading3 t =>
    intro hin
    rcases List.mem_append.mp hin with hm | hm
    · simp at hm
    · exact h.2.2 hm
  | divider => decide

theorem all_wf (md : List Char) : ∀ b ∈ markdownToSdkBlocks md, wfBlock b := by
  intro b hb
  rcases List.mem_filterMap.mp hb with ⟨raw, hraw, hparse⟩
  exact parser_wf hparse (no_nl_of_mem_splitLines md raw hraw)

theorem reparse_list : ∀ bs : List Block, (∀ b ∈ bs, wfBlock b) →
    (bs.map blockLine).filterMap parseLine = bs := by
  intro bs
  induction bs with
  | nil => intro _; rfl
  | cons b bs ih =>
    intro h
    rw [List.map_cons, List.filterMap_cons, reparse (h b (List.mem_cons_self b bs))]
    rw [ih fun x hx => h x (List.mem_cons.mpr (Or.inr hx))]

/-- C6: reconstructing the text of a parse result (re-prefixing the text of each block
text with its marker and joining with newlines) and reparsing yields the same
block sequence. -/
theorem c6_roundtrip (md : List Char) :
    markdownToSdkBlocks (reconstruct (markdownToSdkBlocks md)) = markdownToSdkBlocks md := by
  have hwf := all_wf md
  cases hbs : markdownToSdkBlocks md with
  | nil => rfl
  | cons b bs =>
    rw [hbs] at hwf
    rw [reconstruct, markdownToSdkBlocks,
      splitLines_joinLines ((b :: bs).map blockLine) (by simp) ?hnl]
    case hnl =>
      intro l hl
      rcases List.mem_map.mp hl with ⟨x, hx, rfl⟩
      exact blockLine_no_nl (hwf x hx)
    exact reparse_list (b :: bs) hwf

/-! ## Batch partition lemmas -/

theorem batchSlices_nil (bs : Nat) : batchSlices [] bs = [] := by
  rw [batchSlices]
  have h0 : (([] : List Block).length + bs - 1) / bs = 0 := by
    cases bs with
    | zero => rfl
    | succ n =>
      rw [List.length_nil]
      exact Nat.div_eq_of_lt (by omega)
  rw [h0]
  rfl

theorem batchSlices_cons (blocks : List Block) (bs : Nat) (hbs : 1 ≤ bs)
    (hne : blocks ≠ []) :
    batchSlices blocks bs = blocks.take bs :: batchSlices (blocks.drop bs) bs := by
  have hlen : 1 ≤ blocks.length := by
    cases blocks with
    | nil => exact absurd rfl hne
    | cons a l => simp
  have hcount : (blocks.length + bs - 1) / bs = (blocks.length - 1) / bs + 1 := by
    rw [show blocks.length + bs - 1 = (blocks.length - 1) + bs by omega,
      Nat.add_div_right _ (by omega)]
  have hcount' : ((blocks.drop bs).length + bs - 1) / bs = (blocks.length - 1) / bs := by
    rw [List.length_drop]
    rcases le_or_lt bs blocks.length with hle | hlt
    · rw [show blocks.length - bs + bs - 1 = blocks.length - 1 by omega]
    · rw [show blocks.length - bs = 0 by omega]
      rw [show 0 + bs - 1 = bs - 1 by omega]
      rw [Nat.div_eq_of_lt (by omega), Nat.div_eq_of_lt (by omega)]
  rw [batchSlices, batchSlices, hcount, hcount', List.range_succ_eq_map]
  rw [List.map_cons, List.map_map]
  congr 1
  · rw [Nat.zero_mul, List.drop_zero]
  · apply List.map_congr_left
    intro k _
    show (blocks.drop ((k + 1) * bs)).take bs = ((blocks.drop bs).drop (k * bs)).take bs
    rw [List.drop_drop, Nat.succ_mul, Nat.add_comm (k * bs) bs, Nat.add_comm]

theorem batchSlices_flatten (bs : Nat) (hbs : 1 ≤ bs) : ∀ (n : Nat) (blocks : List Block),
    blocks.length ≤ n → (batchSlices blocks bs).flatten = blocks := by
  intro n
  induction n with
  | zero =>
    intro blocks hlen
    have hnil : blocks = [] := List.length_eq_zero.mp (Nat.le_zero.mp hlen)
    rw [hnil, batchSlices_nil]
    rfl
  | succ n ih =>
    intro blocks hlen
    cases hb : blocks with
    | nil => rw [batchSlices_nil]; rfl
    | cons a l =>
      rw [← hb, batchSlices_cons blocks bs hbs (by rw [hb]; simp)]
      have hlen' : (blocks.drop bs).length ≤ n := by
        rw [List.length_drop]
        have h1 : 1 ≤ blocks.length := by rw [hb]; simp
        omega
      rw [List.flatten_cons, ih (blocks.drop bs) hlen']
      exact List.take_append_drop bs blocks

theorem batchSlices_mem (bs : Nat) (hbs : 1 ≤ bs) : ∀ (n : Nat) (blocks : List Block),
    blocks.length ≤ n → ∀ c ∈ batchSlices blocks bs, c ≠ [] ∧ c.length ≤ bs := by
  intro n
  induction n with
  | zero =>
    intro blocks hlen c hc
    have hnil : blocks = [] := List.length_eq_zero.mp (Nat.le_zero.mp hlen)
    rw [hnil, batchSlices_nil] at hc
    cases hc
  | succ n ih =>
    intro blocks hlen c hc
    cases hb : blocks with
    | nil =>
      rw [hb, batchSlices_nil] at hc
      cases hc
    | cons a l =>
      rw [batchSlices_cons blocks bs hbs (by rw [hb]; simp)] at hc
      rcases List.mem_cons.mp hc with rfl | hmem
      · constructor
        · rw [hb]
          cases bs with
          | zero => omega
          | succ m => simp
        · rw [List.length_take]
          omega
      · have hlen' : (blocks.drop bs).length ≤ n := by
          rw [List.length_drop]
          have h1 : 1 ≤ blocks.length := by rw [hb]; simp
          omega
        exact ih (blocks.drop bs) hlen' c hmem

/-- C2: for every block sequence and every `max_batch_size ≥ 1`, the slices
visited by the upload loop partition the sequence: their concatenation in
order is the original sequence, every slice is non-empty, and no slice
exceeds the batch size. -/
theorem c2_batch_partition (blocks : List Block) (bs : Nat) (hbs : 1 ≤ bs) :
    (batchSlices blocks bs).flatten = blocks ∧
    ∀ c ∈ batchSlices blocks bs, c ≠ [] ∧ c.length ≤ bs :=
  ⟨batchSlices_flatten bs hbs blocks.length blocks (Nat.le_refl _),
   batchSlices_mem bs hbs blocks.length blocks (Nat.le_refl _)⟩

/-- C2 witness: the example from section 8 of the spec, four blocks with batch size 2. -/
theorem c2_batch_partition_witness :
    (batchSlices (markdownToSdkBlocks ("# Daily\nline one\n---\n## Section".data)) 2).flatten
      = markdownToSdkBlocks ("# Daily\nline one\n---\n## Section".data) :=
  (c2_batch_partition (markdownToSdkBlocks ("# Daily\nline one\n---\n## Section".data)) 2
    (by decide)).1

/-! ## Uploader loop lemmas -/

theorem bwLoop_ok (docId : String) (respOk : Nat → Bool) :
    ∀ (l : List (List Block)) (i : Nat),
    bwLoop docId (fun k => Except.ok (respOk k)) (l.enumFrom i) =
      ⟨l.map (RemoteCall.appendBlocks docId),
       ((List.range' i l.length).filter fun k => !respOk k).map (fun k => k + 1),
       none, ()⟩ := by
  intro l
  induction l with
  | nil => intro i; rfl
  | cons b l ih =>
    intro i
    rw [show (b :: l).enumFrom i = (i, b) :: l.enumFrom (i + 1) from rfl]
    by_cases hi : respOk i
    · simp [bwLoop, ih (i + 1), List.range'_succ, List.filter_cons, hi]
    · simp [bwLoop, ih (i + 1), List.range'_succ, List.filter_cons, hi]

/-- C3 (amended): when no append call raises, the uploader submits every
batch in order — one remote call per batch, never aborting early — and logs
one error entry per failing batch, in batch order, carrying the 1-based
batch number; but its return value is `None`: no aggregate outcome list is
returned to the caller. -/
theorem c3_continue_and_log (docId : String) (blocks : List Block) (respOk : Nat → Bool) :
    (batchWriteBlocks docId blocks (fun k => Except.ok (respOk k))).calls
      = (batchSlices blocks batchSize).map (RemoteCall.appendBlocks docId) ∧
    (batchWriteBlocks docId blocks (fun k => Except.ok (respOk k))).failLogs
      = (((List.range (batchSlices blocks batchSize).length).filter
          fun k => !respOk k).map fun k => k + 1) ∧
    (batchWriteBlocks docId blocks (fun k => Except.ok (respOk k))).raised = none ∧
    (batchWriteBlocks docId blocks (fun k => Except.ok (respOk k))).ret = () := by
  rw [batchWriteBlocks,
    show (batchSlices blocks batchSize).enum
      = (batchSlices blocks batchSize).enumFrom 0 from rfl,
    bwLoop_ok docId respOk (batchSlices blocks batchSize) 0, List.range_eq_range']
  exact ⟨rfl, rfl, rfl, rfl⟩

/-- C3 counterexample: the caller-visible return value of the uploader (`None`,
i.e. `Unit`) carries no per-batch outcome information — no decoding of it can
reproduce the per-batch success flags for every oracle, already for a
one-batch input. -/
theorem c3_counterexample :
    ¬ ∃ f : Unit → List Bool,
      ∀ respOk : Nat → Bool,
        f (batchWriteBlocks "doc" cexBlocks (fun k => Except.ok (respOk k))).ret
          = (List.range (batchSlices cexBlocks batchSize).length).map respOk := by
  rintro ⟨f, hf⟩
  have h1 := hf (fun _ => true)
  have h2 := hf (fun _ => false)
  exact absurd (h1.symm.trans h2) (by decide)

/-! ## Pipeline lemmas -/

theorem result_ignores_notify (env : PipelineEnv) (w : NotifyWire) (title content : String) :
    (createDailyDoc (setNotify env w) title content).result
      = (createDailyDoc env title content).result := by
  rcases env with ⟨cfg, cr, br, nw⟩
  simp only [createDailyDoc, setNotify]
  cases hcfg : is_configured cfg
  · rfl
  · cases cr with
    | raises e => rfl
    | fails code msg => rfl
    | succeeds docId =>
      simp only []
      cases hr : (batchWriteBlocks docId (markdownToSdkBlocks content.data) br).raised with
      | some e => rfl
      | none =>
        cases cfg.feishu_bot_webhook with
        | none => rfl
        | some url =>
          by_cases hu : url = "" <;> simp [hu]

/-- C4: once document creation succeeded and produced a URL, the
returned URL is unchanged under any notification outcome — timeout,
connection error, HTTP error status, malformed body, or application error
code; notification failure is never escalated. -/
theorem c4_notify_independent (env : PipelineEnv) (w : NotifyWire)
    (title content url : String)
    (h : (createDailyDoc env title content).result = some url) :
    (createDailyDoc (setNotify env w) title content).result = some url := by
  rw [result_ignores_notify]
  exact h

/-- C4 witness: a fully successful run keeps its URL when notification times
out. -/
theorem c4_notify_independent_witness :
    (createDailyDoc (setNotify exEnv NotifyWire.timeout) "t" "# hi").result
      = some "https://feishu.cn/docx/d1" :=
  c4_notify_independent exEnv NotifyWire.timeout "t" "# hi" "https://feishu.cn/docx/d1"
    (by decide)

/-- C7: no exception crosses the `create_daily_doc` boundary — the `uncaught`
component is always `none` — and whatever the outermost handler catches
surfaces as an overall failure: the caller gets `None` instead of a fault. -/
theorem c7_no_fault_escape (env : PipelineEnv) (title content : String) (e : PyExc) :
    (createDailyDoc env title content).uncaught = none ∧
    ((createDailyDoc env title content).caught = some e →
      (createDailyDoc env title content).result = none) := by
  rcases env with ⟨cfg, cr, br, nw⟩
  simp only [createDailyDoc]
  cases hcfg : is_configured cfg
  · exact ⟨rfl, fun hh => rfl⟩
  · cases cr with
    | raises e' => exact ⟨rfl, fun hh => rfl⟩
    | fails code msg => exact ⟨rfl, fun hh => rfl⟩
    | succeeds docId =>
      simp only []
      cases hr : (batchWriteBlocks docId (markdownToSdkBlocks content.data) br).raised with
      | some e' => exact ⟨rfl, fun hh => rfl⟩
      | none =>
        cases cfg.feishu_bot_webhook with
        | none => exact ⟨rfl, fun hh => Option.noConfusion hh⟩
        | some url =>
          by_cases hu : url = ""
          · simp only [if_pos hu]
            exact ⟨rfl, fun hh => Option.noConfusion hh⟩
          · simp only [if_neg hu]
            exact ⟨rfl, fun hh => Option.noConfusion hh⟩

/-- C7 witness: a run whose document-creation call raises is caught and
returns `None`. -/
theorem c7_no_fault_escape_witness :
    (createDailyDoc exEnvRaise "t" "x").uncaught = none ∧
    (createDailyDoc exEnvRaise "t" "x").result = none :=
  ⟨(c7_no_fault_escape exEnvRaise "t" "x" (PyExc.exc "boom")).1,
   (c7_no_fault_escape exEnvRaise "t" "x" (PyExc.exc "boom")).2 (by decide)⟩

/-- C8: `is_configured` is true iff app id, app secret and folder token are
all present — the webhook is not consulted — and an unconfigured pipeline is
refused up front: it returns `None` and performs no remote call. -/
theorem c8_config_readiness (c : FeishuConfig) (w : Option String) (env : PipelineEnv)
    (title content : String) (h : is_configured env.config = false) :
    (is_configured c = true ↔
      truthy c.feishu_app_id = true ∧ truthy c.feishu_app_secret = true ∧
      truthy c.feishu_folder_token = true) ∧
    is_configured ⟨c.feishu_app_id, c.feishu_app_secret, c.feishu_folder_token, w⟩
      = is_configured c ∧
    (createDailyDoc env title content).result = none ∧
    (createDailyDoc env title content).remoteCalls = [] := by
  refine ⟨?_, rfl, ?_, ?_⟩
  · rw [is_configured]
    simp [Bool.and_eq_true, and_assoc]
  · simp [createDailyDoc, h]
  · simp [createDailyDoc, h]

/-- C8 witness: a configuration missing the app secret is refused with no
remote call. -/
theorem c8_config_readiness_witness :
    (createDailyDoc exEnvBad "t" "x").result = none ∧
    (createDailyDoc exEnvBad "t" "x").remoteCalls = [] :=
  (c8_config_readiness exConfigBad none exEnvBad "t" "x" (by decide)).2.2

end FeishuDoc
